/-
Verification of the polygon fetch-process-aggregate pipeline
(fixed_script_with_comments.go).

The shallow embedding below models the sequential data path of the
program: `processPolygon` reduces one polygon to a local bounding box,
weight sum and heavy flag (honouring the cooperative cancellation check
performed every 1000 elements), and `collectResults` folds a stream of
per-polygon outcomes into the final `Result`, delivering it exactly when
the success count reaches the expected total, or reporting one of the
three fatal causes when the stream ends early.

Modelling decisions:
  * Go `int` is 64-bit; coordinates are `Int`, and `math.MaxInt` /
    `math.MinInt` are the explicit 64-bit constants.  No arithmetic is
    performed on coordinates (only comparisons), so no overflow wrap is
    needed.
  * `float32` weights are modelled by `Rat`.  The claims settled here
    concern the comparison/accumulation structure of the code (clamping
    at 0, the >= 100 threshold, the fold order), not rounding;
    the counterexample weights used below are exactly representable in
    float32, so the refutations transfer to the Go program.
  * `ctx.Err()` is modelled by an oracle `cancel : Nat → Option GoError`
    giving the value the context would return at the check performed at
    loop index `i`; the aggregator receives the value of `ctx.Err()` at
    its final check as `ctxErr`.
  * Go channels are modelled by the list of outcomes the aggregator
    would receive, in arrival order; worker-scheduling nondeterminism is
    modelled by quantifying over permutations of the produced outcomes.
  * Go `nil` pointers become `Option`; `log.Fatalf` termination becomes
    the `CollectOutcome.fatal` constructor.
-/
import Mathlib

set_option linter.unusedVariables false

/-- Models the Go `error` values that flow through the pipeline:
the two context errors and the per-index fetch failures. -/
inductive GoError where
  | deadlineExceeded : GoError
  | canceled : GoError
  | fetchError (status : Int) : GoError
deriving DecidableEq, Repr

/-- `WeightedPoint`: embedded integer point plus a real-valued weight
(Go: `Point{X, Y int}` embedded in `WeightedPoint{Weight float32}`). -/
structure WeightedPoint where
  X : Int
  Y : Int
  Weight : Rat
deriving DecidableEq, Repr

/-- `Polygon`: ordered sequence of weighted points. -/
structure Polygon where
  points : List WeightedPoint
deriving DecidableEq, Repr

/-- `Bbox`: axis-aligned bounding box, `(X1,Y1)` min corner, `(X2,Y2)`
max corner. -/
structure Bbox where
  X1 : Int
  Y1 : Int
  X2 : Int
  Y2 : Int
deriving DecidableEq, Repr

/-- `Result`: the final aggregate (global bbox, max weight, heavy list).
Heavy polygons are stored through `Option` to model the Go `*Polygon`
pointers. -/
structure Result where
  Bbox : Bbox
  MaxWeight : Rat
  HeavyPolygons : List (Option Polygon)
deriving DecidableEq, Repr

/-- `PolygonResult`: outcome of processing one polygon (Go struct of the
same name): local bbox, weight, heavy flag, polygon pointer, error. -/
structure PolygonResult where
  localBbox : Bbox
  weight : Rat
  isHeavy : Bool
  polygon : Option Polygon
  err : Option GoError
deriving DecidableEq, Repr

/-- Go `MinInt`. -/
def MinInt (a b : Int) : Int := if a < b then a else b

/-- Go `MaxInt`. -/
def MaxInt (a b : Int) : Int := if a > b then a else b

/-- Go `MaxFloat32`, on the `Rat` model of `float32`. -/
def MaxFloat32 (a b : Rat) : Rat := if a > b then a else b

/-- Go `math.MaxInt` on a 64-bit platform. -/
def mathMaxInt : Int := 9223372036854775807

/-- Go `math.MinInt` on a 64-bit platform. -/
def mathMinInt : Int := -9223372036854775808

/-- One iteration of the bbox update in `processPolygon`'s loop:
`bbox.X1 = MinInt(bbox.X1, p.X)` and the three companions. -/
def updateBbox (b : Bbox) (q : WeightedPoint) : Bbox :=
  { X1 := MinInt b.X1 q.X
    Y1 := MinInt b.Y1 q.Y
    X2 := MaxInt b.X2 q.X
    Y2 := MaxInt b.Y2 q.Y }

/-- The `for i, p := range poly.Points` loop of `processPolygon`:
at every index `i` with `i % 1000 == 0` it first consults `ctx.Err()`
(the `cancel` oracle) and aborts with that error if non-nil; otherwise
it accumulates the weight and updates the bbox. -/
def processLoop (cancel : Nat → Option GoError) :
    List WeightedPoint → Nat → Bbox → Rat → Except GoError (Bbox × Rat)
  | [], _, bbox, sumWeight => .ok (bbox, sumWeight)
  | q :: rest, i, bbox, sumWeight =>
    if i % 1000 = 0 then
      match cancel i with
      | some e => .error e
      | none => processLoop cancel rest (i + 1) (updateBbox bbox q) (sumWeight + q.Weight)
    else processLoop cancel rest (i + 1) (updateBbox bbox q) (sumWeight + q.Weight)

/-- Go `processPolygon`: empty polygon returns the zero-valued
`Bbox{}` with weight 0, not heavy, no error; otherwise the bbox is
seeded with the first point's coordinates, the loop runs over all
points (cancellation checked every 1000 elements), and on success the
heavy flag is `sumWeight >= 100`. -/
def processPolygon (poly : Polygon) (cancel : Nat → Option GoError) : PolygonResult :=
  match poly.points with
  | [] =>
    { localBbox := ⟨0, 0, 0, 0⟩, weight := 0, isHeavy := false
      polygon := some poly, err := none }
  | p0 :: _ =>
    match processLoop cancel poly.points 0 ⟨p0.X, p0.Y, p0.X, p0.Y⟩ 0 with
    | .error e =>
      { localBbox := ⟨0, 0, 0, 0⟩, weight := 0, isHeavy := false
        polygon := none, err := some e }
    | .ok (bbox, sumWeight) =>
      { localBbox := bbox, weight := sumWeight
        isHeavy := decide (sumWeight ≥ 100)
        polygon := some poly, err := none }

/-- The initial `Result` built at the top of `collectResults`: sentinel
bbox `{math.MaxInt, math.MaxInt, math.MinInt, math.MinInt}`, max weight
0, empty heavy list. -/
def initResult : Result :=
  { Bbox := ⟨mathMaxInt, mathMaxInt, mathMinInt, mathMinInt⟩
    MaxWeight := 0
    HeavyPolygons := [] }

/-- The per-success-outcome update in `collectResults`'s loop: fold the
local bbox into the global one with `MinInt`/`MaxInt`, update the max
weight with `MaxFloat32`, and append the polygon when heavy. -/
def foldOutcome (r : Result) (o : PolygonResult) : Result :=
  { Bbox := ⟨MinInt r.Bbox.X1 o.localBbox.X1, MinInt r.Bbox.Y1 o.localBbox.Y1,
             MaxInt r.Bbox.X2 o.localBbox.X2, MaxInt r.Bbox.Y2 o.localBbox.Y2⟩
    MaxWeight := MaxFloat32 r.MaxWeight o.weight
    HeavyPolygons :=
      if o.isHeavy then r.HeavyPolygons ++ [o.polygon] else r.HeavyPolygons }

/-- The three ways `collectResults` can terminate. -/
inductive CollectOutcome where
  /-- `resCh <- result; return` inside the loop, the moment
  `processed == total`; `remaining` is the channel content it never
  consumes. -/
  | delivered (r : Result) (remaining : List PolygonResult) : CollectOutcome
  /-- `log.Fatalf("Не все многоугольники обработаны: %v", processingError)`:
  the stream ended early and the recorded processing error is surfaced. -/
  | processingFatal (e : GoError) : CollectOutcome
  /-- `log.Fatalf("Превышено время выполнения: %v", ctx.Err())`. -/
  | timeoutFatal (e : GoError) : CollectOutcome
  /-- `log.Fatalf("Неизвестная ошибка: обработано только %d из %d ...")`. -/
  | incompleteFatal (processed total : Nat) : CollectOutcome
  /-- plain `return` after the loop with `processed < total` false
  (only reachable when `total = 0`): nothing is ever sent on `resCh`. -/
  | returnedSilently : CollectOutcome
deriving DecidableEq, Repr

/-- The `for polygonResult := range results` loop of `collectResults`,
with the post-loop failure diagnosis.  Error outcomes record the error
(overwriting any earlier one) and are skipped without incrementing
`processed`; success outcomes are folded in, and the `Result` is sent
the moment `processed` reaches `total`. -/
def collectLoop (ctxErr : Option GoError) (total : Nat) :
    List PolygonResult → Result → Nat → Option GoError → CollectOutcome
  | [], result, processed, processingError =>
    if processed < total then
      match processingError with
      | some e => .processingFatal e
      | none =>
        match ctxErr with
        | some e => .timeoutFatal e
        | none => .incompleteFatal processed total
    else .returnedSilently
  | o :: rest, result, processed, processingError =>
    match o.err with
    | some e => collectLoop ctxErr total rest result processed (some e)
    | none =>
      let result' := foldOutcome result o
      if processed + 1 = total then .delivered result' rest
      else collectLoop ctxErr total rest result' (processed + 1) processingError

/-- Go `collectResults`: run `collectLoop` from the initial state.
`outcomes` is the sequence the `results` channel would yield before
closing; `ctxErr` is the value of `ctx.Err()` at the post-loop check. -/
def collectResults (ctxErr : Option GoError) (outcomes : List PolygonResult)
    (total : Nat) : CollectOutcome :=
  collectLoop ctxErr total outcomes initResult 0 none

/-- Folding a whole list of outcomes with the `collectResults` update
step (used to state what the delivered `Result` is). -/
def foldOutcomes (acc : Result) (os : List PolygonResult) : Result :=
  os.foldl foldOutcome acc

/-- A polygon's weight: the left-to-right running sum `sumWeight`
computed by `processPolygon` (0 for the empty polygon). -/
def polyWeight (p : Polygon) : Rat :=
  p.points.foldl (fun s q => s + q.Weight) 0

/-- Number of success outcomes in a stream — the final value of the
`processed` counter when `collectResults` drains the whole stream. -/
def successCount (os : List PolygonResult) : Nat :=
  (os.filter (fun o => o.err.isNone)).length

/-- The value left in `processingError` after draining a stream from a
given starting value: the error of the last failure outcome, if any. -/
def lastErrFrom (perr : Option GoError) : List PolygonResult → Option GoError
  | [] => perr
  | o :: rest =>
    match o.err with
    | some e => lastErrFrom (some e) rest
    | none => lastErrFrom perr rest

/-- All points of all polygons, in order. -/
def allPoints (ps : List Polygon) : List WeightedPoint :=
  ps.foldr (fun p acc => p.points ++ acc) []

/-- Coordinates representable in Go's 64-bit `int`. -/
def validCoords (q : WeightedPoint) : Prop :=
  mathMinInt ≤ q.X ∧ q.X ≤ mathMaxInt ∧ mathMinInt ≤ q.Y ∧ q.Y ≤ mathMaxInt

instance (q : WeightedPoint) : Decidable (validCoords q) := by
  unfold validCoords
  infer_instance

/-- The post-loop diagnosis of `collectResults`, as a standalone
function of the recorded processing error, the context error and the
counters (the body of the `if processed < total` block). -/
def diagnose (perr ctxErr : Option GoError) (processed total : Nat) : CollectOutcome :=
  match perr with
  | some e => .processingFatal e
  | none =>
    match ctxErr with
    | some e => .timeoutFatal e
    | none => .incompleteFatal processed total

/-- A failure outcome as a worker would emit for an HTTP 500 response
(`fetchAndProcessPolygon` returns `PolygonResult{err: ...}`). -/
def errOutcomeA : PolygonResult :=
  { localBbox := ⟨0, 0, 0, 0⟩, weight := 0, isHeavy := false
    polygon := none, err := some (GoError.fetchError 500) }

/-- A second, distinct failure outcome (a context error). -/
def errOutcomeB : PolygonResult :=
  { localBbox := ⟨0, 0, 0, 0⟩, weight := 0, isHeavy := false
    polygon := none, err := some GoError.deadlineExceeded }

/-- A polygon whose single point has weight -1 (exactly representable
in float32). -/
def negPoly : Polygon := ⟨[⟨0, 0, -1⟩]⟩

/-! ### Basic facts about the Go min/max helpers -/

theorem MinInt_eq_min (a b : Int) : MinInt a b = min a b := by
  unfold MinInt
  rcases lt_or_le a b with h | h
  · rw [if_pos h, min_eq_left (le_of_lt h)]
  · rw [if_neg (not_lt.mpr h), min_eq_right h]

theorem MaxInt_eq_max (a b : Int) : MaxInt a b = max a b := by
  unfold MaxInt
  rcases le_or_lt a b with h | h
  · rw [if_neg (not_lt.mpr h), max_eq_right h]
  · rw [if_pos h, max_eq_left (le_of_lt h)]

theorem MaxFloat32_eq_max (a b : Rat) : MaxFloat32 a b = max a b := by
  unfold MaxFloat32
  rcases le_or_lt a b with h | h
  · rw [if_neg (not_lt.mpr h), max_eq_right h]
  · rw [if_pos h, max_eq_left (le_of_lt h)]

/-! ### Generic facts about folding `min`/`max` over a list -/

theorem foldl_min_le_init {α : Type} [LinearOrder α] (l : List α) (a : α) :
    l.foldl min a ≤ a := by
  induction l generalizing a with
  | nil => exact le_refl a
  | cons x xs ih =>
    exact le_trans (ih (min a x)) (min_le_left a x)

theorem foldl_min_le_mem {α : Type} [LinearOrder α] (l : List α) (a x : α) :
    x ∈ l → l.foldl min a ≤ x := by
  induction l generalizing a with
  | nil => intro h; cases h
  | cons y ys ih =>
    intro hx
    rcases List.mem_cons.mp hx with rfl | h
    · exact le_trans (foldl_min_le_init ys (min a x)) (min_le_right a x)
    · exact ih (min a y) h

theorem foldl_min_attained {α : Type} [LinearOrder α] (l : List α) (a : α) :
    l.foldl min a = a ∨ ∃ x ∈ l, l.foldl min a = x := by
  induction l generalizing a with
  | nil => left; rfl
  | cons y ys ih =>
    rcases ih (min a y) with h | ⟨x, hx, hfx⟩
    · rcases le_or_lt a y with hay | hya
      · left
        rw [List.foldl_cons, h, min_eq_left hay]
      · right
        refine ⟨y, List.mem_cons_self y ys, ?_⟩
        rw [List.foldl_cons, h, min_eq_right (le_of_lt hya)]
    · right
      exact ⟨x, List.mem_cons_of_mem y hx, hfx⟩

theorem foldl_max_init_le {α : Type} [LinearOrder α] (l : List α) (a : α) :
    a ≤ l.foldl max a := by
  induction l generalizing a with
  | nil => exact le_refl a
  | cons x xs ih =>
    exact le_trans (le_max_left a x) (ih (max a x))

theorem foldl_max_mem_le {α : Type} [LinearOrder α] (l : List α) (a x : α) :
    x ∈ l → x ≤ l.foldl max a := by
  induction l generalizing a with
  | nil => intro h; cases h
  | cons y ys ih =>
    intro hx
    rcases List.mem_cons.mp hx with rfl | h
    · exact le_trans (le_max_right a x) (foldl_max_init_le ys (max a x))
    · exact ih (max a y) h

theorem foldl_max_attained {α : Type} [LinearOrder α] (l : List α) (a : α) :
    l.foldl max a = a ∨ ∃ x ∈ l, l.foldl max a = x := by
  induction l generalizing a with
  | nil => left; rfl
  | cons y ys ih =>
    rcases ih (max a y) with h | ⟨x, hx, hfx⟩
    · rcases le_or_lt y a with hya | hay
      · left
        rw [List.foldl_cons, h, max_eq_left hya]
      · right
        refine ⟨y, List.mem_cons_self y ys, ?_⟩
        rw [List.foldl_cons, h, max_eq_right (le_of_lt hay)]
    · right
      exact ⟨x, List.mem_cons_of_mem y hx, hfx⟩

/-! ### Characterisation of `processLoop` and `processPolygon` -/

theorem processLoop_ok (cancel : Nat → Option GoError)
    (pts : List WeightedPoint) (i : Nat) (bbox : Bbox) (s : Rat)
    (b' : Bbox) (s' : Rat)
    (h : processLoop cancel pts i bbox s = .ok (b', s')) :
    b'.X1 = (pts.map WeightedPoint.X).foldl min bbox.X1 ∧
    b'.Y1 = (pts.map WeightedPoint.Y).foldl min bbox.Y1 ∧
    b'.X2 = (pts.map WeightedPoint.X).foldl max bbox.X2 ∧
    b'.Y2 = (pts.map WeightedPoint.Y).foldl max bbox.Y2 ∧
    s' = pts.foldl (fun acc q => acc + q.Weight) s := by
  induction pts generalizing i bbox s with
  | nil =>
    simp only [processLoop, Except.ok.injEq, Prod.mk.injEq] at h
    obtain ⟨hb, hs⟩ := h
    subst hb; subst hs
    simp
  | cons q rest ih =>
    simp only [processLoop] at h
    by_cases hc : i % 1000 = 0
    · rw [if_pos hc] at h
      cases hcv : cancel i with
      | some e => rw [hcv] at h; cases h
      | none =>
        rw [hcv] at h
        have := ih (i + 1) (updateBbox bbox q) (s + q.Weight) h
        simpa [updateBbox, MinInt_eq_min, MaxInt_eq_max] using this
    · rw [if_neg hc] at h
      have := ih (i + 1) (updateBbox bbox q) (s + q.Weight) h
      simpa [updateBbox, MinInt_eq_min, MaxInt_eq_max] using this

theorem processLoop_no_cancel_ok (cancel : Nat → Option GoError)
    (pts : List WeightedPoint) (i : Nat) (bbox : Bbox) (s : Rat)
    (hnc : ∀ j, j % 1000 = 0 → cancel j = none) :
    ∃ b' s', processLoop cancel pts i bbox s = .ok (b', s') := by
  induction pts generalizing i bbox s with
  | nil => exact ⟨bbox, s, rfl⟩
  | cons q rest ih =>
    simp only [processLoop]
    by_cases hc : i % 1000 = 0
    · rw [if_pos hc, hnc i hc]
      exact ih (i + 1) (updateBbox bbox q) (s + q.Weight)
    · rw [if_neg hc]
      exact ih (i + 1) (updateBbox bbox q) (s + q.Weight)

/-- When `processPolygon` returns an error outcome, every data field of
the returned `PolygonResult` is the Go zero value: no partial bbox or
weight escapes. -/
theorem processPolygon_err_shape (poly : Polygon) (cancel : Nat → Option GoError)
    (e : GoError) (h : (processPolygon poly cancel).err = some e) :
    processPolygon poly cancel =
      { localBbox := ⟨0, 0, 0, 0⟩, weight := 0, isHeavy := false
        polygon := none, err := some e } := by
  cases hpts : poly.points with
  | nil =>
    simp only [processPolygon, hpts] at h
    exact Option.noConfusion h
  | cons p0 rest =>
    simp only [processPolygon, hpts] at h ⊢
    cases hl : processLoop cancel (p0 :: rest) 0 ⟨p0.X, p0.Y, p0.X, p0.Y⟩ 0 with
    | error e' =>
      simp only [hl, Option.some.injEq] at h ⊢
      rw [h]
    | ok v =>
      obtain ⟨bbox, s⟩ := v
      simp only [hl] at h
      exact Option.noConfusion h

/-- When `processPolygon` succeeds, its reported weight is the
left-to-right sum of the point weights (`polyWeight`). -/
theorem processPolygon_success_weight (poly : Polygon) (cancel : Nat → Option GoError)
    (h : (processPolygon poly cancel).err = none) :
    (processPolygon poly cancel).weight = polyWeight poly := by
  cases hpts : poly.points with
  | nil => simp [processPolygon, polyWeight, hpts]
  | cons p0 rest =>
    simp only [processPolygon, hpts]
    cases hl : processLoop cancel (p0 :: rest) 0 ⟨p0.X, p0.Y, p0.X, p0.Y⟩ 0 with
    | error e' =>
      simp only [processPolygon, hpts, hl] at h
      exact Option.noConfusion h
    | ok v =>
      obtain ⟨bbox, s⟩ := v
      simp only [hl]
      have := processLoop_ok cancel (p0 :: rest) 0 ⟨p0.X, p0.Y, p0.X, p0.Y⟩ 0 bbox s hl
      simp only [polyWeight, hpts]
      exact this.2.2.2.2

/-- When `processPolygon` succeeds on a non-empty polygon, the local
bounding box bounds every point and each of its four edges is attained
by some point: it is exactly the component-wise min/max. -/
theorem processPolygon_success_bbox (poly : Polygon) (cancel : Nat → Option GoError)
    (hne : poly.points ≠ [])
    (h : (processPolygon poly cancel).err = none) :
    (∀ q ∈ poly.points,
        (processPolygon poly cancel).localBbox.X1 ≤ q.X ∧
        (processPolygon poly cancel).localBbox.Y1 ≤ q.Y ∧
        q.X ≤ (processPolygon poly cancel).localBbox.X2 ∧
        q.Y ≤ (processPolygon poly cancel).localBbox.Y2) ∧
    (∃ q ∈ poly.points, (processPolygon poly cancel).localBbox.X1 = q.X) ∧
    (∃ q ∈ poly.points, (processPolygon poly cancel).localBbox.Y1 = q.Y) ∧
    (∃ q ∈ poly.points, (processPolygon poly cancel).localBbox.X2 = q.X) ∧
    (∃ q ∈ poly.points, (processPolygon poly cancel).localBbox.Y2 = q.Y) := by
  cases hpts : poly.points with
  | nil => exact absurd hpts hne
  | cons p0 rest =>
    simp only [processPolygon, hpts]
    cases hl : processLoop cancel (p0 :: rest) 0 ⟨p0.X, p0.Y, p0.X, p0.Y⟩ 0 with
    | error e' =>
      simp only [processPolygon, hpts, hl] at h
      exact Option.noConfusion h
    | ok v =>
      obtain ⟨bbox, s⟩ := v
      simp only [hl]
      obtain ⟨hx1, hy1, hx2, hy2, _⟩ :=
        processLoop_ok cancel (p0 :: rest) 0 ⟨p0.X, p0.Y, p0.X, p0.Y⟩ 0 bbox s hl
      simp only at hx1 hy1 hx2 hy2
      constructor
      · intro q hq
        refine ⟨?_, ?_, ?_, ?_⟩
        · rw [hx1]
          exact foldl_min_le_mem _ _ _ (List.mem_map_of_mem WeightedPoint.X hq)
        · rw [hy1]
          exact foldl_min_le_mem _ _ _ (List.mem_map_of_mem WeightedPoint.Y hq)
        · rw [hx2]
          exact foldl_max_mem_le _ _ _ (List.mem_map_of_mem WeightedPoint.X hq)
        · rw [hy2]
          exact foldl_max_mem_le _ _ _ (List.mem_map_of_mem WeightedPoint.Y hq)
      refine ⟨?_, ?_, ?_, ?_⟩
      · rcases foldl_min_attained ((p0 :: rest).map WeightedPoint.X) p0.X with ha | ⟨x, hx, hfx⟩
        · exact ⟨p0, List.mem_cons_self p0 rest, by rw [hx1, ha]⟩
        · obtain ⟨q, hq, rfl⟩ := List.mem_map.mp hx
          exact ⟨q, hq, by rw [hx1, hfx]⟩
      · rcases foldl_min_attained ((p0 :: rest).map WeightedPoint.Y) p0.Y with ha | ⟨x, hx, hfx⟩
        · exact ⟨p0, List.mem_cons_self p0 rest, by rw [hy1, ha]⟩
        · obtain ⟨q, hq, rfl⟩ := List.mem_map.mp hx
          exact ⟨q, hq, by rw [hy1, hfx]⟩
      · rcases foldl_max_attained ((p0 :: rest).map WeightedPoint.X) p0.X with ha | ⟨x, hx, hfx⟩
        · exact ⟨p0, List.mem_cons_self p0 rest, by rw [hx2, ha]⟩
        · obtain ⟨q, hq, rfl⟩ := List.mem_map.mp hx
          exact ⟨q, hq, by rw [hx2, hfx]⟩
      · rcases foldl_max_attained ((p0 :: rest).map WeightedPoint.Y) p0.Y with ha | ⟨x, hx, hfx⟩
        · exact ⟨p0, List.mem_cons_self p0 rest, by rw [hy2, ha]⟩
        · obtain ⟨q, hq, rfl⟩ := List.mem_map.mp hx
          exact ⟨q, hq, by rw [hy2, hfx]⟩

/-! ### Characterisation of `collectLoop` -/

theorem collectLoop_delivers (ctxErr : Option GoError) (total : Nat)
    (os : List PolygonResult) (acc : Result) (processed : Nat)
    (perr : Option GoError) :
    (∀ o ∈ os, o.err = none) → os ≠ [] → os.length + processed = total →
    collectLoop ctxErr total os acc processed perr =
      .delivered (foldOutcomes acc os) [] := by
  induction os generalizing acc processed perr with
  | nil => intro _ hne _; exact absurd rfl hne
  | cons o rest ih =>
    intro hsucc hne hlen
    have ho : o.err = none := hsucc o (List.mem_cons_self _ _)
    simp only [collectLoop, ho]
    cases rest with
    | nil =>
      have hp : processed + 1 = total := by
        simp only [List.length_cons, List.length_nil] at hlen
        omega
      rw [if_pos hp]
      simp [foldOutcomes]
    | cons o2 rest2 =>
      have hp : ¬ processed + 1 = total := by
        simp only [List.length_cons] at hlen
        omega
      rw [if_neg hp]
      have hrec := ih (foldOutcome acc o) (processed + 1) perr
        (fun x hx => hsucc x (List.mem_cons_of_mem _ hx))
        (by simp)
        (by simp only [List.length_cons] at hlen ⊢; omega)
      rw [hrec]
      simp [foldOutcomes]

theorem collectLoop_incomplete (ctxErr : Option GoError) (total : Nat)
    (os : List PolygonResult) (acc : Result) (processed : Nat)
    (perr : Option GoError) :
    successCount os + processed < total →
    collectLoop ctxErr total os acc processed perr =
      diagnose (lastErrFrom perr os) ctxErr (processed + successCount os) total := by
  induction os generalizing acc processed perr with
  | nil =>
    intro h
    have hp : processed < total := by
      simp only [successCount, List.filter_nil, List.length_nil] at h
      omega
    simp only [collectLoop, lastErrFrom, successCount, List.filter_nil,
      List.length_nil, Nat.add_zero]
    rw [if_pos hp]
    cases perr <;> cases ctxErr <;> rfl
  | cons o rest ih =>
    intro h
    cases ho : o.err with
    | some e =>
      have h1 : lastErrFrom perr (o :: rest) = lastErrFrom (some e) rest := by
        simp [lastErrFrom, ho]
      have h2 : successCount (o :: rest) = successCount rest := by
        simp [successCount, List.filter_cons, ho]
      rw [h2] at h
      simp only [collectLoop, ho, h1, h2]
      exact ih acc processed (some e) h
    | none =>
      have h1 : lastErrFrom perr (o :: rest) = lastErrFrom perr rest := by
        simp [lastErrFrom, ho]
      have h2 : successCount (o :: rest) = successCount rest + 1 := by
        simp [successCount, List.filter_cons, ho]
      rw [h2] at h
      have hp : ¬ processed + 1 = total := by omega
      simp only [collectLoop, ho, h1, h2]
      rw [if_neg hp]
      have hrec := ih (foldOutcome acc o) (processed + 1) perr (by omega)
      rw [hrec]
      have harith : processed + 1 + successCount rest = processed + (successCount rest + 1) := by
        omega
      rw [harith]

/-- `collectLoop` on an error outcome: the outcome is skipped, only the
recorded processing error changes. -/
theorem collectLoop_skips_error (ctxErr : Option GoError) (total : Nat)
    (o : PolygonResult) (rest : List PolygonResult) (acc : Result)
    (processed : Nat) (perr : Option GoError) (e : GoError)
    (ho : o.err = some e) :
    collectLoop ctxErr total (o :: rest) acc processed perr =
      collectLoop ctxErr total rest acc processed (some e) := by
  simp only [collectLoop, ho]

/-! ### Components of the folded `Result` -/

theorem foldOutcomes_X1 (acc : Result) (os : List PolygonResult) :
    (foldOutcomes acc os).Bbox.X1 =
      (os.map (fun o => o.localBbox.X1)).foldl min acc.Bbox.X1 := by
  induction os generalizing acc with
  | nil => rfl
  | cons o rest ih =>
    simp only [foldOutcomes, List.foldl_cons, List.map_cons] at ih ⊢
    rw [ih (foldOutcome acc o)]
    congr 1
    simp [foldOutcome, MinInt_eq_min]

theorem foldOutcomes_Y1 (acc : Result) (os : List PolygonResult) :
    (foldOutcomes acc os).Bbox.Y1 =
      (os.map (fun o => o.localBbox.Y1)).foldl min acc.Bbox.Y1 := by
  induction os generalizing acc with
  | nil => rfl
  | cons o rest ih =>
    simp only [foldOutcomes, List.foldl_cons, List.map_cons] at ih ⊢
    rw [ih (foldOutcome acc o)]
    congr 1
    simp [foldOutcome, MinInt_eq_min]

theorem foldOutcomes_X2 (acc : Result) (os : List PolygonResult) :
    (foldOutcomes acc os).Bbox.X2 =
      (os.map (fun o => o.localBbox.X2)).foldl max acc.Bbox.X2 := by
  induction os generalizing acc with
  | nil => rfl
  | cons o rest ih =>
    simp only [foldOutcomes, List.foldl_cons, List.map_cons] at ih ⊢
    rw [ih (foldOutcome acc o)]
    congr 1
    simp [foldOutcome, MaxInt_eq_max]

theorem foldOutcomes_Y2 (acc : Result) (os : List PolygonResult) :
    (foldOutcomes acc os).Bbox.Y2 =
      (os.map (fun o => o.localBbox.Y2)).foldl max acc.Bbox.Y2 := by
  induction os generalizing acc with
  | nil => rfl
  | cons o rest ih =>
    simp only [foldOutcomes, List.foldl_cons, List.map_cons] at ih ⊢
    rw [ih (foldOutcome acc o)]
    congr 1
    simp [foldOutcome, MaxInt_eq_max]

theorem foldOutcomes_MaxWeight (acc : Result) (os : List PolygonResult) :
    (foldOutcomes acc os).MaxWeight =
      (os.map (fun o => o.weight)).foldl max acc.MaxWeight := by
  induction os generalizing acc with
  | nil => rfl
  | cons o rest ih =>
    simp only [foldOutcomes, List.foldl_cons, List.map_cons] at ih ⊢
    rw [ih (foldOutcome acc o)]
    congr 1
    simp [foldOutcome, MaxFloat32_eq_max]

/-! ### Membership helpers for `zipWith` -/

theorem mem_of_mem_zipWith {α β γ : Type} (f : α → β → γ)
    (l1 : List α) (l2 : List β) (c : γ) :
    c ∈ List.zipWith f l1 l2 → ∃ a ∈ l1, ∃ b ∈ l2, c = f a b := by
  induction l1 generalizing l2 with
  | nil => intro h; simp at h
  | cons a as ih =>
    cases l2 with
    | nil => intro h; simp at h
    | cons b bs =>
      intro h
      rcases List.mem_cons.mp h with rfl | h2
      · exact ⟨a, List.mem_cons_self _ _, b, List.mem_cons_self _ _, rfl⟩
      · obtain ⟨a', ha, b', hb, hc⟩ := ih bs h2
        exact ⟨a', List.mem_cons_of_mem _ ha, b', List.mem_cons_of_mem _ hb, hc⟩

theorem zipWith_mem_of_left {α β γ : Type} (f : α → β → γ)
    (l1 : List α) (l2 : List β) (a : α) :
    l1.length = l2.length → a ∈ l1 →
      ∃ b ∈ l2, f a b ∈ List.zipWith f l1 l2 := by
  induction l1 generalizing l2 with
  | nil => intro _ ha; cases ha
  | cons x xs ih =>
    cases l2 with
    | nil => intro hlen _; simp at hlen
    | cons y ys =>
      intro hlen ha
      rcases List.mem_cons.mp ha with rfl | h
      · exact ⟨y, List.mem_cons_self _ _, List.mem_cons_self _ _⟩
      · have hlen' : xs.length = ys.length := by
          simp only [List.length_cons] at hlen
          omega
        obtain ⟨b, hb, hmem⟩ := ih ys hlen' h
        exact ⟨b, List.mem_cons_of_mem _ hb, List.mem_cons_of_mem _ hmem⟩

theorem mem_allPoints {ps : List Polygon} {p : Polygon} {q : WeightedPoint} :
    p ∈ ps → q ∈ p.points → q ∈ allPoints ps := by
  induction ps with
  | nil => intro hp; cases hp
  | cons r rs ih =>
    intro hp hq
    rcases List.mem_cons.mp hp with rfl | h
    · exact List.mem_append_left _ hq
    · exact List.mem_append_right _ (ih h hq)

theorem allPoints_mem {ps : List Polygon} {q : WeightedPoint} :
    q ∈ allPoints ps → ∃ p ∈ ps, q ∈ p.points := by
  induction ps with
  | nil => intro hq; cases hq
  | cons r rs ih =>
    intro hq
    rcases List.mem_append.mp hq with h | h
    · exact ⟨r, List.mem_cons_self _ _, h⟩
    · obtain ⟨p, hp, hqp⟩ := ih h
      exact ⟨p, List.mem_cons_of_mem _ hp, hqp⟩

/-! ### Further aggregator helpers -/

theorem collectLoop_total_zero (ctxErr : Option GoError)
    (os : List PolygonResult) (acc : Result) (processed : Nat)
    (perr : Option GoError) :
    collectLoop ctxErr 0 os acc processed perr = .returnedSilently := by
  induction os generalizing acc processed perr with
  | nil =>
    simp only [collectLoop]
    rw [if_neg (Nat.not_lt_zero processed)]
  | cons o rest ih =>
    cases ho : o.err with
    | some e =>
      simp only [collectLoop, ho]
      exact ih acc processed (some e)
    | none =>
      simp only [collectLoop, ho]
      rw [if_neg (by omega : ¬ processed + 1 = 0)]
      exact ih (foldOutcome acc o) (processed + 1) perr

theorem successCount_le_length (os : List PolygonResult) :
    successCount os ≤ os.length :=
  List.length_filter_le _ os

theorem all_success_of_successCount_eq (os : List PolygonResult) :
    successCount os = os.length → ∀ o ∈ os, o.err = none := by
  induction os with
  | nil => intro _ o ho; cases ho
  | cons o rest ih =>
    intro h x hx
    cases ho : o.err with
    | some e =>
      exfalso
      have h1 : successCount (o :: rest) = successCount rest := by
        simp [successCount, List.filter_cons, ho]
      have h2 := successCount_le_length rest
      rw [h1, List.length_cons] at h
      omega
    | none =>
      have h1 : successCount (o :: rest) = successCount rest + 1 := by
        simp [successCount, List.filter_cons, ho]
      rw [h1, List.length_cons] at h
      rcases List.mem_cons.mp hx with rfl | hx2
      · exact ho
      · exact ih (by omega) x hx2

theorem collectLoop_delivered_inv (ctxErr : Option GoError) (total : Nat)
    (os : List PolygonResult) (acc : Result) (processed : Nat)
    (perr : Option GoError) (r : Result) (rem : List PolygonResult) :
    collectLoop ctxErr total os acc processed perr = .delivered r rem →
    ∃ consumed, os = consumed ++ rem ∧
      processed + successCount consumed = total := by
  induction os generalizing acc processed perr with
  | nil =>
    intro h
    simp only [collectLoop] at h
    by_cases hp : processed < total
    · rw [if_pos hp] at h
      cases perr with
      | some e => exact CollectOutcome.noConfusion h
      | none =>
        cases ctxErr with
        | some e => exact CollectOutcome.noConfusion h
        | none => exact CollectOutcome.noConfusion h
    · rw [if_neg hp] at h
      exact CollectOutcome.noConfusion h
  | cons o rest ih =>
    intro h
    cases ho : o.err with
    | some e =>
      simp only [collectLoop, ho] at h
      obtain ⟨consumed, hrest, hcnt⟩ := ih acc processed (some e) h
      refine ⟨o :: consumed, by rw [List.cons_append, hrest], ?_⟩
      have : successCount (o :: consumed) = successCount consumed := by
        simp [successCount, List.filter_cons, ho]
      rw [this]
      exact hcnt
    | none =>
      simp only [collectLoop, ho] at h
      by_cases hp : processed + 1 = total
      · rw [if_pos hp] at h
        have hrem : rest = rem := by
          injection h with h1 h2
        refine ⟨[o], by rw [hrem, List.singleton_append], ?_⟩
        have : successCount [o] = 1 := by
          simp [successCount, List.filter_cons, ho]
        rw [this]
        exact hp
      · rw [if_neg hp] at h
        obtain ⟨consumed, hrest, hcnt⟩ := ih (foldOutcome acc o) (processed + 1) perr h
        refine ⟨o :: consumed, by rw [List.cons_append, hrest], ?_⟩
        have : successCount (o :: consumed) = successCount consumed + 1 := by
          simp [successCount, List.filter_cons, ho]
        rw [this]
        omega

/-! ### Claim theorems -/

/-- Claim C4: the `isHeavy` flag returned by `processPolygon` is true
exactly when the accumulated weight is at least 100 (inclusive
threshold); in the empty and error cases the weight is 0 and the flag
false, so the equivalence holds for every point sequence and every
cancellation oracle. -/
theorem c4_isHeavy_iff_weight_ge_100 (poly : Polygon)
    (cancel : Nat → Option GoError) :
    (processPolygon poly cancel).isHeavy = true ↔
      100 ≤ (processPolygon poly cancel).weight := by
  cases hpts : poly.points with
  | nil =>
    simp only [processPolygon, hpts]
    constructor
    · intro hf; exact absurd hf (by simp)
    · intro hw; norm_num at hw
  | cons p0 rest =>
    simp only [processPolygon, hpts]
    cases hl : processLoop cancel (p0 :: rest) 0 ⟨p0.X, p0.Y, p0.X, p0.Y⟩ 0 with
    | error e =>
      simp only [hl]
      constructor
      · intro hf; exact absurd hf (by simp)
      · intro hw; norm_num at hw
    | ok v =>
      obtain ⟨bbox, s⟩ := v
      simp only [hl]
      simp [ge_iff_le, decide_eq_true_iff]

/-- Claim C5: when `processPolygon` aborts because of the cancellation
signal, the outcome is an error outcome whose bbox, weight, heavy flag
and polygon pointer are all zero values — no partial accumulation is
surfaced; and the signal is only consulted at element indices that are
multiples of 1000, so an oracle that is clear at those checkpoints never
causes an abort. -/
theorem c5_cancel_abort_zeroes_outcome (poly : Polygon)
    (cancel : Nat → Option GoError) :
    (∀ e, (processPolygon poly cancel).err = some e →
        processPolygon poly cancel =
          { localBbox := ⟨0, 0, 0, 0⟩, weight := 0, isHeavy := false
            polygon := none, err := some e }) ∧
    ((∀ j, j % 1000 = 0 → cancel j = none) →
        (processPolygon poly cancel).err = none) := by
  constructor
  · intro e h
    exact processPolygon_err_shape poly cancel e h
  · intro hnc
    cases hpts : poly.points with
    | nil => simp [processPolygon, hpts]
    | cons p0 rest =>
      simp only [processPolygon, hpts]
      obtain ⟨b', s', hok⟩ :=
        processLoop_no_cancel_ok cancel (p0 :: rest) 0 ⟨p0.X, p0.Y, p0.X, p0.Y⟩ 0 hnc
      simp [hok]

/-- Witness for C5: a polygon of one point under an already-fired
deadline aborts at the very first checkpoint (index 0) and returns the
all-zero error outcome. -/
theorem c5_witness :
    processPolygon ⟨[⟨1, 2, 3⟩]⟩ (fun _ => some GoError.deadlineExceeded) =
      { localBbox := ⟨0, 0, 0, 0⟩, weight := 0, isHeavy := false
        polygon := none, err := some GoError.deadlineExceeded } :=
  (c5_cancel_abort_zeroes_outcome ⟨[⟨1, 2, 3⟩]⟩
      (fun _ => some GoError.deadlineExceeded)).1
    GoError.deadlineExceeded (by decide)

/-- Claim C9: with expected total 0, `collectResults` never sends on the
result channel: whatever the outcome stream and context state, it drains
the stream and returns silently, delivering no `Result`. -/
theorem c9_total_zero_never_delivers (ctxErr : Option GoError)
    (os : List PolygonResult) :
    collectResults ctxErr os 0 = .returnedSilently :=
  collectLoop_total_zero ctxErr os initResult 0 none

/-- Claim C10: `processPolygon` on an empty point sequence returns a
success outcome — even under a cancellation oracle that has already
fired — because the empty-sequence early return precedes every
cancellation check. -/
theorem c10_empty_polygon_ignores_cancellation (poly : Polygon)
    (cancel : Nat → Option GoError) (h : poly.points = []) :
    processPolygon poly cancel =
      { localBbox := ⟨0, 0, 0, 0⟩, weight := 0, isHeavy := false
        polygon := some poly, err := none } := by
  simp [processPolygon, h]

/-- Witness for C10: the empty polygon under an always-fired
cancellation oracle still yields the success outcome. -/
theorem c10_witness :
    processPolygon ⟨[]⟩ (fun _ => some GoError.deadlineExceeded) =
      { localBbox := ⟨0, 0, 0, 0⟩, weight := 0, isHeavy := false
        polygon := some ⟨[]⟩, err := none } :=
  c10_empty_polygon_ignores_cancellation ⟨[]⟩
    (fun _ => some GoError.deadlineExceeded) rfl

/-- Counterexample to claim C3: the bbox returned for an empty polygon
is the zero-valued `Bbox{0,0,0,0}`, which is NOT an identity of the
bbox union performed by `collectResults`: folding it into the running
global box `{5,5,10,10}` changes that box (to `{0,0,10,10}`). -/
theorem c3_counterexample :
    (processPolygon ⟨[]⟩ (fun _ => none)).err = none ∧
    (foldOutcome { Bbox := ⟨5, 5, 10, 10⟩, MaxWeight := 0, HeavyPolygons := [] }
        (processPolygon ⟨[]⟩ (fun _ => none))).Bbox ≠ (⟨5, 5, 10, 10⟩ : Bbox) := by
  decide

/-- Claim C3 (amended): for an empty polygon `processPolygon` returns
weight 0, not-heavy and the zero box `{0,0,0,0}`; folding that box into
a running global bounding box in `collectResults` leaves the global box
unchanged if and only if the global box already contains the origin
(X1 ≤ 0 ≤ X2 and Y1 ≤ 0 ≤ Y2) — it is not an identity of the union. -/
theorem c3_amended_empty_polygon (poly : Polygon)
    (cancel : Nat → Option GoError) (h : poly.points = []) (g : Result) :
    processPolygon poly cancel =
      { localBbox := ⟨0, 0, 0, 0⟩, weight := 0, isHeavy := false
        polygon := some poly, err := none } ∧
    ((foldOutcome g (processPolygon poly cancel)).Bbox = g.Bbox ↔
      (g.Bbox.X1 ≤ 0 ∧ g.Bbox.Y1 ≤ 0 ∧ 0 ≤ g.Bbox.X2 ∧ 0 ≤ g.Bbox.Y2)) := by
  have hres : processPolygon poly cancel =
      { localBbox := ⟨0, 0, 0, 0⟩, weight := 0, isHeavy := false
        polygon := some poly, err := none } := by
    simp [processPolygon, h]
  refine ⟨hres, ?_⟩
  rw [hres]
  obtain ⟨⟨gx1, gy1, gx2, gy2⟩, gw, ghl⟩ := g
  simp only [foldOutcome, MinInt_eq_min, MaxInt_eq_max]
  constructor
  · intro hb
    injection hb with h1 h2 h3 h4
    refine ⟨?_, ?_, ?_, ?_⟩
    · exact min_eq_left_iff.mp h1
    · exact min_eq_left_iff.mp h2
    · exact max_eq_left_iff.mp h3
    · exact max_eq_left_iff.mp h4
  · intro ⟨h1, h2, h3, h4⟩
    simp only [Bbox.mk.injEq]
    exact ⟨min_eq_left_iff.mpr h1, min_eq_left_iff.mpr h2,
      max_eq_left_iff.mpr h3, max_eq_left_iff.mpr h4⟩

/-- Witness for C3 (amended): instantiated at the empty polygon and the
global box `{5,5,10,10}`; the fold leaves the box unchanged iff
`5 ≤ 0 ∧ 5 ≤ 0 ∧ 0 ≤ 10 ∧ 0 ≤ 10` (which is false here). -/
theorem c3_amended_witness :
    processPolygon ⟨[]⟩ (fun _ => none) =
      { localBbox := ⟨0, 0, 0, 0⟩, weight := 0, isHeavy := false
        polygon := some ⟨[]⟩, err := none } ∧
    ((foldOutcome { Bbox := ⟨5, 5, 10, 10⟩, MaxWeight := 0, HeavyPolygons := [] }
        (processPolygon ⟨[]⟩ (fun _ => none))).Bbox =
      ({ Bbox := ⟨5, 5, 10, 10⟩, MaxWeight := 0, HeavyPolygons := [] } : Result).Bbox ↔
      ((5 : Int) ≤ 0 ∧ (5 : Int) ≤ 0 ∧ (0 : Int) ≤ 10 ∧ (0 : Int) ≤ 10)) :=
  c3_amended_empty_polygon ⟨[]⟩ (fun _ => none) rfl
    { Bbox := ⟨5, 5, 10, 10⟩, MaxWeight := 0, HeavyPolygons := [] }

/-- Claim C8: for a non-empty point sequence, a successful
`processPolygon` returns a local box with X1 ≤ X2 and Y1 ≤ Y2; and the
`collectResults` fold step preserves validity of the running global
box — folding any outcome whose local box is valid yields a valid box
(in particular the first valid fold repairs the sentinel-initialised
box, and every later fold keeps the invariant). -/
theorem c8_bbox_invariant (poly : Polygon) (cancel : Nat → Option GoError)
    (g : Result) (o : PolygonResult)
    (hne : poly.points ≠ []) (hok : (processPolygon poly cancel).err = none)
    (hvalid : o.localBbox.X1 ≤ o.localBbox.X2 ∧ o.localBbox.Y1 ≤ o.localBbox.Y2) :
    ((processPolygon poly cancel).localBbox.X1 ≤
        (processPolygon poly cancel).localBbox.X2 ∧
      (processPolygon poly cancel).localBbox.Y1 ≤
        (processPolygon poly cancel).localBbox.Y2) ∧
    ((foldOutcome g o).Bbox.X1 ≤ (foldOutcome g o).Bbox.X2 ∧
      (foldOutcome g o).Bbox.Y1 ≤ (foldOutcome g o).Bbox.Y2) := by
  constructor
  · obtain ⟨hbound, ⟨q1, hq1, hx1⟩, ⟨q2, hq2, hy1⟩, _, _⟩ :=
      processPolygon_success_bbox poly cancel hne hok
    constructor
    · rw [hx1]
      exact (hbound q1 hq1).2.2.1
    · rw [hy1]
      exact (hbound q2 hq2).2.2.2
  · simp only [foldOutcome, MinInt_eq_min, MaxInt_eq_max]
    constructor
    · exact le_trans (min_le_right _ _) (le_trans hvalid.1 (le_max_right _ _))
    · exact le_trans (min_le_right _ _) (le_trans hvalid.2 (le_max_right _ _))

/-- Witness for C8: a one-point polygon with no cancellation, folded
together with an outcome carrying the valid box `{1,2,3,4}` into the
sentinel-initialised global result. -/
theorem c8_witness :
    ((processPolygon ⟨[⟨7, 8, 1⟩]⟩ (fun _ => none)).localBbox.X1 ≤
        (processPolygon ⟨[⟨7, 8, 1⟩]⟩ (fun _ => none)).localBbox.X2 ∧
      (processPolygon ⟨[⟨7, 8, 1⟩]⟩ (fun _ => none)).localBbox.Y1 ≤
        (processPolygon ⟨[⟨7, 8, 1⟩]⟩ (fun _ => none)).localBbox.Y2) ∧
    ((foldOutcome initResult ⟨⟨1, 2, 3, 4⟩, 0, false, none, none⟩).Bbox.X1 ≤
        (foldOutcome initResult ⟨⟨1, 2, 3, 4⟩, 0, false, none, none⟩).Bbox.X2 ∧
      (foldOutcome initResult ⟨⟨1, 2, 3, 4⟩, 0, false, none, none⟩).Bbox.Y1 ≤
        (foldOutcome initResult ⟨⟨1, 2, 3, 4⟩, 0, false, none, none⟩).Bbox.Y2) :=
  c8_bbox_invariant ⟨[⟨7, 8, 1⟩]⟩ (fun _ => none) initResult
    ⟨⟨1, 2, 3, 4⟩, 0, false, none, none⟩ (by decide) (by decide) (by decide)

/-- Claim C6: for a stream of at most N outcomes (one per polygon) with
N > 0, `collectResults` delivers a `Result` exactly when all N outcomes
arrived and all were successes; on delivery it has consumed the whole
stream (remaining channel content `[]`), delivering at the moment the
processed count reached N, and a single delivery is possible.  If any
outcome was a failure, no `Result` is delivered. -/
theorem c6_delivery_rule (ctxErr : Option GoError) (os : List PolygonResult)
    (N : Nat) (hN : 0 < N) (hlen : os.length ≤ N) :
    (∀ r rem, collectResults ctxErr os N = .delivered r rem →
        rem = [] ∧ os.length = N ∧ ∀ o ∈ os, o.err = none) ∧
    ((os.length = N ∧ ∀ o ∈ os, o.err = none) →
        collectResults ctxErr os N = .delivered (foldOutcomes initResult os) []) := by
  constructor
  · intro r rem h
    obtain ⟨consumed, hos, hcnt⟩ :=
      collectLoop_delivered_inv ctxErr N os initResult 0 none r rem h
    have h1 : successCount consumed ≤ consumed.length := successCount_le_length consumed
    have h2 : consumed.length + rem.length = os.length := by
      rw [hos, List.length_append]
    have hrem : rem = [] := by
      have : rem.length = 0 := by omega
      exact List.eq_nil_of_length_eq_zero this
    have hco : consumed = os := by
      rw [hos, hrem, List.append_nil]
    refine ⟨hrem, ?_, ?_⟩
    · omega
    · apply all_success_of_successCount_eq
      rw [← hco]
      omega
  · rintro ⟨hlen', hsucc⟩
    have hne : os ≠ [] := by
      intro hemp
      rw [hemp] at hlen'
      simp at hlen'
      omega
    exact collectLoop_delivers ctxErr N os initResult 0 none hsucc hne (by omega)

/-- Witness for C6: two success outcomes with expected total 2 — the
`Result` is delivered with nothing left unconsumed; conversely any
delivery implies the two above facts. -/
theorem c6_witness :
    (∀ r rem,
        collectResults none [processPolygon ⟨[⟨0, 0, 1⟩]⟩ (fun _ => none),
          processPolygon ⟨[⟨2, 3, 4⟩]⟩ (fun _ => none)] 2 = .delivered r rem →
        rem = [] ∧
        ([processPolygon ⟨[⟨0, 0, 1⟩]⟩ (fun _ => none),
          processPolygon ⟨[⟨2, 3, 4⟩]⟩ (fun _ => none)] : List PolygonResult).length = 2 ∧
        ∀ o ∈ ([processPolygon ⟨[⟨0, 0, 1⟩]⟩ (fun _ => none),
          processPolygon ⟨[⟨2, 3, 4⟩]⟩ (fun _ => none)] : List PolygonResult),
          o.err = none) ∧
    ((([processPolygon ⟨[⟨0, 0, 1⟩]⟩ (fun _ => none),
          processPolygon ⟨[⟨2, 3, 4⟩]⟩ (fun _ => none)] : List PolygonResult).length = 2 ∧
        ∀ o ∈ ([processPolygon ⟨[⟨0, 0, 1⟩]⟩ (fun _ => none),
          processPolygon ⟨[⟨2, 3, 4⟩]⟩ (fun _ => none)] : List PolygonResult),
          o.err = none) →
      collectResults none [processPolygon ⟨[⟨0, 0, 1⟩]⟩ (fun _ => none),
          processPolygon ⟨[⟨2, 3, 4⟩]⟩ (fun _ => none)] 2 =
        .delivered (foldOutcomes initResult
          [processPolygon ⟨[⟨0, 0, 1⟩]⟩ (fun _ => none),
           processPolygon ⟨[⟨2, 3, 4⟩]⟩ (fun _ => none)]) []) :=
  c6_delivery_rule none
    [processPolygon ⟨[⟨0, 0, 1⟩]⟩ (fun _ => none),
     processPolygon ⟨[⟨2, 3, 4⟩]⟩ (fun _ => none)] 2
    (by decide) (by decide)

/-- Counterexample to claim C7: with two failure outcomes (an HTTP 500
fetch error first, a deadline error second) and expected total 2, the
aggregator surfaces the LAST recorded error, not the first one — the Go
code overwrites `processingError` on every failing outcome. -/
theorem c7_counterexample :
    collectResults none [errOutcomeA, errOutcomeB] 2 =
      .processingFatal GoError.deadlineExceeded ∧
    collectResults none [errOutcomeA, errOutcomeB] 2 ≠
      .processingFatal (GoError.fetchError 500) ∧
    errOutcomeA.err = some (GoError.fetchError 500) ∧
    errOutcomeB.err = some GoError.deadlineExceeded := by
  decide

/-- Claim C7 (amended): if the stream ends with fewer than N processed
outcomes, the aggregator reports a failure distinguishing three causes
in priority order: the LAST (most recently received) polygon error if
any outcome failed; otherwise a timeout failure if the deadline fired;
otherwise a generic incomplete-processing failure naming how many of
the N were processed.  No `Result` is delivered in any of these
cases. -/
theorem c7_amended_failure_diagnosis (ctxErr : Option GoError)
    (os : List PolygonResult) (N : Nat) (h : successCount os < N) :
    (∀ e, lastErrFrom none os = some e →
        collectResults ctxErr os N = .processingFatal e) ∧
    (lastErrFrom none os = none → ∀ e, ctxErr = some e →
        collectResults ctxErr os N = .timeoutFatal e) ∧
    (lastErrFrom none os = none → ctxErr = none →
        collectResults ctxErr os N = .incompleteFatal (successCount os) N) := by
  have hmain := collectLoop_incomplete ctxErr N os initResult 0 none (by omega)
  refine ⟨?_, ?_, ?_⟩
  · intro e he
    unfold collectResults
    rw [hmain, he]
    rfl
  · intro hl e hc
    unfold collectResults
    rw [hmain, hl, hc]
    rfl
  · intro hl hc
    unfold collectResults
    rw [hmain, hl, hc]
    simp [diagnose, Nat.zero_add]

/-- Witness for C7 (amended): a single HTTP 500 failure with expected
total 1 is surfaced as that processing error. -/
theorem c7_amended_witness :
    collectResults none [errOutcomeA] 1 =
      .processingFatal (GoError.fetchError 500) :=
  (c7_amended_failure_diagnosis none [errOutcomeA] 1 (by decide)).1
    (GoError.fetchError 500) (by decide)

/-- Counterexample to claim C2: a single polygon whose only point has
weight -1.  The maximum of the per-polygon weight sums is -1, but the
delivered `max_weight` is 0, because `collectResults` starts its
running maximum at 0 — the claim fails for negative weights. -/
theorem c2_counterexample :
    polyWeight negPoly = -1 ∧
    collectResults none [processPolygon negPoly (fun _ => none)] 1 =
      .delivered { Bbox := ⟨0, 0, 0, 0⟩, MaxWeight := 0, HeavyPolygons := [] } [] ∧
    (0 : Rat) ≠ -1 := by
  have hw : polyWeight negPoly = -1 := by
    simp [polyWeight, negPoly]
  have hpp : processPolygon negPoly (fun _ => none) =
      { localBbox := ⟨0, 0, 0, 0⟩, weight := -1, isHeavy := false
        polygon := some negPoly, err := none } := by
    simp only [processPolygon, negPoly, processLoop, updateBbox]
    norm_num [MinInt, MaxInt]
  refine ⟨hw, ?_, by norm_num⟩
  rw [hpp]
  simp only [collectResults, collectLoop]
  norm_num [foldOutcome, initResult, MinInt, MaxInt, MaxFloat32,
    mathMaxInt, mathMinInt]

/-- Claim C2 (amended): the `max_weight` of the delivered `Result`
equals the maximum of 0 and the per-polygon weight sums: it is an upper
bound of all sums, is itself nonnegative, and is either 0 or attained
by some polygon's sum.  (When some polygon has a nonnegative sum — in
particular when every polygon is empty — this coincides with the plain
maximum of the sums; for all-negative sums it is clamped to 0.) -/
theorem c2_amended_max_weight (ps : List Polygon)
    (cs : List (Nat → Option GoError)) (os : List PolygonResult)
    (ctxErr : Option GoError)
    (hcs : cs.length = ps.length)
    (hperm : os.Perm (List.zipWith processPolygon ps cs))
    (hsucc : ∀ o ∈ os, o.err = none)
    (hne : ps ≠ []) :
    ∃ r, collectResults ctxErr os ps.length = .delivered r [] ∧
      0 ≤ r.MaxWeight ∧
      (∀ p ∈ ps, polyWeight p ≤ r.MaxWeight) ∧
      (r.MaxWeight = 0 ∨ ∃ p ∈ ps, r.MaxWeight = polyWeight p) := by
  have hlen : os.length = ps.length := by
    rw [hperm.length_eq, List.length_zipWith, hcs, Nat.min_self]
  have hosne : os ≠ [] := by
    intro hemp
    rw [hemp] at hlen
    simp only [List.length_nil] at hlen
    exact hne (List.length_eq_zero.mp hlen.symm)
  have hdel := collectLoop_delivers ctxErr ps.length os initResult 0 none
    hsucc hosne (by omega)
  have hMW : (foldOutcomes initResult os).MaxWeight =
      (os.map (fun o => o.weight)).foldl max 0 := by
    rw [foldOutcomes_MaxWeight]
    rfl
  refine ⟨foldOutcomes initResult os, hdel, ?_, ?_, ?_⟩
  · rw [hMW]
    exact foldl_max_init_le _ 0
  · intro p hp
    obtain ⟨c, hc, hmem⟩ := zipWith_mem_of_left processPolygon ps cs p hcs.symm hp
    have hmemos : processPolygon p c ∈ os := hperm.mem_iff.mpr hmem
    have hw : (processPolygon p c).weight = polyWeight p :=
      processPolygon_success_weight p c (hsucc _ hmemos)
    rw [hMW, ← hw]
    exact foldl_max_mem_le _ _ _ (List.mem_map_of_mem _ hmemos)
  · rw [hMW]
    rcases foldl_max_attained (os.map (fun o => o.weight)) 0 with h0 | ⟨w, hw, hfw⟩
    · left
      exact h0
    · obtain ⟨o, ho, rfl⟩ := List.mem_map.mp hw
      have hoz : o ∈ List.zipWith processPolygon ps cs := hperm.mem_iff.mp ho
      obtain ⟨p, hp, c, hc, rfl⟩ := mem_of_mem_zipWith processPolygon ps cs o hoz
      right
      refine ⟨p, hp, ?_⟩
      rw [hfw]
      exact processPolygon_success_weight p c (hsucc _ ho)

/-- Witness for C2 (amended): one polygon of weight 5, outcomes in
production order. -/
theorem c2_amended_witness :
    ∃ r, collectResults none
        (List.zipWith processPolygon [⟨[⟨0, 0, 5⟩]⟩] [fun _ => none])
        ([(⟨[⟨0, 0, 5⟩]⟩ : Polygon)]).length = .delivered r [] ∧
      0 ≤ r.MaxWeight ∧
      (∀ p ∈ [(⟨[⟨0, 0, 5⟩]⟩ : Polygon)], polyWeight p ≤ r.MaxWeight) ∧
      (r.MaxWeight = 0 ∨ ∃ p ∈ [(⟨[⟨0, 0, 5⟩]⟩ : Polygon)], r.MaxWeight = polyWeight p) :=
  c2_amended_max_weight [⟨[⟨0, 0, 5⟩]⟩] [fun _ => none] _ none rfl
    (List.Perm.refl _) (by decide) (by decide)

/-- Claim C1: when every polygon is non-empty, every outcome succeeds,
and coordinates fit in a 64-bit `int`, the delivered global bounding
box is exactly the component-wise min/max over every point of every
polygon — each edge bounds all points and is attained by one —
irrespective of the order in which the outcomes arrive (any permutation
of the produced outcomes). -/
theorem c1_global_bbox (ps : List Polygon) (cs : List (Nat → Option GoError))
    (os : List PolygonResult) (ctxErr : Option GoError)
    (hcs : cs.length = ps.length)
    (hperm : os.Perm (List.zipWith processPolygon ps cs))
    (hsucc : ∀ o ∈ os, o.err = none)
    (hnonempty : ∀ p ∈ ps, p.points ≠ [])
    (hne : ps ≠ [])
    (hrange : ∀ q ∈ allPoints ps, validCoords q) :
    ∃ r, collectResults ctxErr os ps.length = .delivered r [] ∧
      (∀ q ∈ allPoints ps,
        r.Bbox.X1 ≤ q.X ∧ r.Bbox.Y1 ≤ q.Y ∧ q.X ≤ r.Bbox.X2 ∧ q.Y ≤ r.Bbox.Y2) ∧
      (∃ q ∈ allPoints ps, r.Bbox.X1 = q.X) ∧
      (∃ q ∈ allPoints ps, r.Bbox.Y1 = q.Y) ∧
      (∃ q ∈ allPoints ps, r.Bbox.X2 = q.X) ∧
      (∃ q ∈ allPoints ps, r.Bbox.Y2 = q.Y) := by
  have hlen : os.length = ps.length := by
    rw [hperm.length_eq, List.length_zipWith, hcs, Nat.min_self]
  have hosne : os ≠ [] := by
    intro hemp
    rw [hemp] at hlen
    simp only [List.length_nil] at hlen
    exact hne (List.length_eq_zero.mp hlen.symm)
  have hdel := collectLoop_delivers ctxErr ps.length os initResult 0 none
    hsucc hosne (by omega)
  have hX1 : (foldOutcomes initResult os).Bbox.X1 =
      (os.map (fun o => o.localBbox.X1)).foldl min mathMaxInt := by
    rw [foldOutcomes_X1]
    rfl
  have hY1 : (foldOutcomes initResult os).Bbox.Y1 =
      (os.map (fun o => o.localBbox.Y1)).foldl min mathMaxInt := by
    rw [foldOutcomes_Y1]
    rfl
  have hX2 : (foldOutcomes initResult os).Bbox.X2 =
      (os.map (fun o => o.localBbox.X2)).foldl max mathMinInt := by
    rw [foldOutcomes_X2]
    rfl
  have hY2 : (foldOutcomes initResult os).Bbox.Y2 =
      (os.map (fun o => o.localBbox.Y2)).foldl max mathMinInt := by
    rw [foldOutcomes_Y2]
    rfl
  have hbound : ∀ q ∈ allPoints ps,
      (foldOutcomes initResult os).Bbox.X1 ≤ q.X ∧
      (foldOutcomes initResult os).Bbox.Y1 ≤ q.Y ∧
      q.X ≤ (foldOutcomes initResult os).Bbox.X2 ∧
      q.Y ≤ (foldOutcomes initResult os).Bbox.Y2 := by
    intro q hq
    obtain ⟨p, hp, hqp⟩ := allPoints_mem hq
    obtain ⟨c, hc, hmem⟩ := zipWith_mem_of_left processPolygon ps cs p hcs.symm hp
    have hmemos : processPolygon p c ∈ os := hperm.mem_iff.mpr hmem
    obtain ⟨hb, _, _, _, _⟩ :=
      processPolygon_success_bbox p c (hnonempty p hp) (hsucc _ hmemos)
    obtain ⟨hbx1, hby1, hbx2, hby2⟩ := hb q hqp
    refine ⟨?_, ?_, ?_, ?_⟩
    · rw [hX1]
      exact le_trans (foldl_min_le_mem _ _ _
        (List.mem_map_of_mem (fun o => o.localBbox.X1) hmemos)) hbx1
    · rw [hY1]
      exact le_trans (foldl_min_le_mem _ _ _
        (List.mem_map_of_mem (fun o => o.localBbox.Y1) hmemos)) hby1
    · rw [hX2]
      exact le_trans hbx2 (foldl_max_mem_le _ _ _
        (List.mem_map_of_mem (fun o => o.localBbox.X2) hmemos))
    · rw [hY2]
      exact le_trans hby2 (foldl_max_mem_le _ _ _
        (List.mem_map_of_mem (fun o => o.localBbox.Y2) hmemos))
  have hapne : ∃ q0, q0 ∈ allPoints ps := by
    obtain ⟨p0, hp0⟩ := List.exists_mem_of_ne_nil ps hne
    cases hpts : p0.points with
    | nil => exact absurd hpts (hnonempty p0 hp0)
    | cons q0 rest =>
      exact ⟨q0, mem_allPoints hp0 (by rw [hpts]; exact List.mem_cons_self _ _)⟩
  have hattX1 : ∃ q ∈ allPoints ps, (foldOutcomes initResult os).Bbox.X1 = q.X := by
    rcases foldl_min_attained (os.map (fun o => o.localBbox.X1)) mathMaxInt with
      h0 | ⟨x, hx, hfx⟩
    · obtain ⟨q0, hq0⟩ := hapne
      refine ⟨q0, hq0, ?_⟩
      have hb := (hbound q0 hq0).1
      have hr : (foldOutcomes initResult os).Bbox.X1 = mathMaxInt := by rw [hX1, h0]
      have hq0r := (hrange q0 hq0).2.1
      omega
    · obtain ⟨o, ho, rfl⟩ := List.mem_map.mp hx
      have hoz := hperm.mem_iff.mp ho
      obtain ⟨p, hp, c, hc, rfl⟩ := mem_of_mem_zipWith processPolygon ps cs o hoz
      obtain ⟨_, ⟨q, hq, hqx⟩, _, _, _⟩ :=
        processPolygon_success_bbox p c (hnonempty p hp) (hsucc _ ho)
      refine ⟨q, mem_allPoints hp hq, ?_⟩
      rw [hX1, hfx]
      exact hqx
  have hattY1 : ∃ q ∈ allPoints ps, (foldOutcomes initResult os).Bbox.Y1 = q.Y := by
    rcases foldl_min_attained (os.map (fun o => o.localBbox.Y1)) mathMaxInt with
      h0 | ⟨x, hx, hfx⟩
    · obtain ⟨q0, hq0⟩ := hapne
      refine ⟨q0, hq0, ?_⟩
      have hb := (hbound q0 hq0).2.1
      have hr : (foldOutcomes initResult os).Bbox.Y1 = mathMaxInt := by rw [hY1, h0]
      have hq0r := (hrange q0 hq0).2.2.2
      omega
    · obtain ⟨o, ho, rfl⟩ := List.mem_map.mp hx
      have hoz := hperm.mem_iff.mp ho
      obtain ⟨p, hp, c, hc, rfl⟩ := mem_of_mem_zipWith processPolygon ps cs o hoz
      obtain ⟨_, _, ⟨q, hq, hqy⟩, _, _⟩ :=
        processPolygon_success_bbox p c (hnonempty p hp) (hsucc _ ho)
      refine ⟨q, mem_allPoints hp hq, ?_⟩
      rw [hY1, hfx]
      exact hqy
  have hattX2 : ∃ q ∈ allPoints ps, (foldOutcomes initResult os).Bbox.X2 = q.X := by
    rcases foldl_max_attained (os.map (fun o => o.localBbox.X2)) mathMinInt with
      h0 | ⟨x, hx, hfx⟩
    · obtain ⟨q0, hq0⟩ := hapne
      refine ⟨q0, hq0, ?_⟩
      have hb := (hbound q0 hq0).2.2.1
      have hr : (foldOutcomes initResult os).Bbox.X2 = mathMinInt := by rw [hX2, h0]
      have hq0r := (hrange q0 hq0).1
      omega
    · obtain ⟨o, ho, rfl⟩ := List.mem_map.mp hx
      have hoz := hperm.mem_iff.mp ho
      obtain ⟨p, hp, c, hc, rfl⟩ := mem_of_mem_zipWith processPolygon ps cs o hoz
      obtain ⟨_, _, _, ⟨q, hq, hqx⟩, _⟩ :=
        processPolygon_success_bbox p c (hnonempty p hp) (hsucc _ ho)
      refine ⟨q, mem_allPoints hp hq, ?_⟩
      rw [hX2, hfx]
      exact hqx
  have hattY2 : ∃ q ∈ allPoints ps, (foldOutcomes initResult os).Bbox.Y2 = q.Y := by
    rcases foldl_max_attained (os.map (fun o => o.localBbox.Y2)) mathMinInt with
      h0 | ⟨x, hx, hfx⟩
    · obtain ⟨q0, hq0⟩ := hapne
      refine ⟨q0, hq0, ?_⟩
      have hb := (hbound q0 hq0).2.2.2
      have hr : (foldOutcomes initResult os).Bbox.Y2 = mathMinInt := by rw [hY2, h0]
      have hq0r := (hrange q0 hq0).2.2.1
      omega
    · obtain ⟨o, ho, rfl⟩ := List.mem_map.mp hx
      have hoz := hperm.mem_iff.mp ho
      obtain ⟨p, hp, c, hc, rfl⟩ := mem_of_mem_zipWith processPolygon ps cs o hoz
      obtain ⟨_, _, _, _, ⟨q, hq, hqy⟩⟩ :=
        processPolygon_success_bbox p c (hnonempty p hp) (hsucc _ ho)
      refine ⟨q, mem_allPoints hp hq, ?_⟩
      rw [hY2, hfx]
      exact hqy
  exact ⟨foldOutcomes initResult os, hdel, hbound, hattX1, hattY1, hattX2, hattY2⟩

/-- Witness for C1: one polygon with points (0,10) and (10,0), outcomes
in production order. -/
theorem c1_witness :
    ∃ r, collectResults none
        (List.zipWith processPolygon [⟨[⟨0, 10, 100⟩, ⟨10, 0, 2⟩]⟩] [fun _ => none])
        ([(⟨[⟨0, 10, 100⟩, ⟨10, 0, 2⟩]⟩ : Polygon)]).length = .delivered r [] ∧
      (∀ q ∈ allPoints [(⟨[⟨0, 10, 100⟩, ⟨10, 0, 2⟩]⟩ : Polygon)],
        r.Bbox.X1 ≤ q.X ∧ r.Bbox.Y1 ≤ q.Y ∧ q.X ≤ r.Bbox.X2 ∧ q.Y ≤ r.Bbox.Y2) ∧
      (∃ q ∈ allPoints [(⟨[⟨0, 10, 100⟩, ⟨10, 0, 2⟩]⟩ : Polygon)], r.Bbox.X1 = q.X) ∧
      (∃ q ∈ allPoints [(⟨[⟨0, 10, 100⟩, ⟨10, 0, 2⟩]⟩ : Polygon)], r.Bbox.Y1 = q.Y) ∧
      (∃ q ∈ allPoints [(⟨[⟨0, 10, 100⟩, ⟨10, 0, 2⟩]⟩ : Polygon)], r.Bbox.X2 = q.X) ∧
      (∃ q ∈ allPoints [(⟨[⟨0, 10, 100⟩, ⟨10, 0, 2⟩]⟩ : Polygon)], r.Bbox.Y2 = q.Y) :=
  c1_global_bbox [⟨[⟨0, 10, 100⟩, ⟨10, 0, 2⟩]⟩] [fun _ => none] _ none rfl
    (List.Perm.refl _) (by decide) (by decide) (by decide) (by decide)
